import Mathlib

/-!
# Verification of the batch-executor interface
  (`src/coprocessor/dag/batch/interface.rs`)

A shallow embedding of the pull-based, columnar batch-executor contract:
the `BatchExecutor` trait, its pass-through implementation for `Box<T>`,
the `WithSummaryCollector` decorator implementation, and the
`BatchExecuteResult` structure with its drain protocol.

Rust's `&mut self` methods are embedded as explicit state passing: an
executor over a state type `σ` is a record of pure functions, and a
method call returns both its result and the successor state.

External collaborator types (`FieldType`, `LazyBatchColumnVec`,
`EvalWarnings`, `Error`) are opaque to this interface; they are embedded
as concrete structures that expose only what the interface uses (a row
count and decidable equality).
-/

set_option autoImplicit false

namespace TikvBatch

/-- External schema field descriptor (`tipb::expression::FieldType`).
Opaque to this interface; modelled as a wrapped code. -/
structure FieldType where
  code : Nat
deriving DecidableEq

/-- External physical column store
(`crate::coprocessor::codec::batch::LazyBatchColumnVec`).  The interface
treats it as opaque beyond having a physical row count; modelled as a
column-major list of columns. -/
structure LazyBatchColumnVec where
  columns : List (List Int)
deriving DecidableEq

/-- Physical row count of the column store (`rows_len()`): the length of
the first column (zero when there are no columns). -/
def LazyBatchColumnVec.rows_len (v : LazyBatchColumnVec) : Nat :=
  match v.columns with
  | [] => 0
  | c :: _ => c.length

/-- External diagnostics type (`EvalWarnings`), opaque to this interface;
modelled as a list of warning codes. -/
structure EvalWarnings where
  warnings : List Nat
deriving DecidableEq

/-- External unified error type (`crate::coprocessor::Error`), opaque to
this interface; modelled as a wrapped code. -/
structure Error where
  code : Nat
deriving DecidableEq

instance {ε α : Type} [DecidableEq ε] [DecidableEq α] : DecidableEq (Except ε α) :=
  fun a b =>
    match a, b with
    | .ok x, .ok y => decidable_of_iff (x = y) (by simp)
    | .error x, .error y => decidable_of_iff (x = y) (by simp)
    | .ok _, .error _ => .isFalse (by simp)
    | .error _, .ok _ => .isFalse (by simp)

/-- Structure `BatchExecuteResult`: data flowed between parent and child executors
during a single `next_batch()` invocation.  `is_drained` embeds the Rust
field of type `Result<bool, Error>`: `Except.ok false` is "continue",
`Except.ok true` is "drained successfully", `Except.error e` is "drained
with error `e`". -/
structure BatchExecuteResult where
  physical_columns : LazyBatchColumnVec
  logical_rows : List Nat
  warnings : EvalWarnings
  is_drained : Except Error Bool
deriving DecidableEq

/-- Modelled from the spec: the execution-summary record (elapsed time,
row count) of the missing `exec_summary.rs`.  One record per instrumented
operator: number of pull iterations, number of produced logical rows, and
accumulated processing time. -/
structure ExecSummary where
  time_processed_ns : Nat
  num_produced_rows : Nat
  num_iterations : Nat
deriving DecidableEq

/-- The all-zero execution summary, the state of freshly reset counters. -/
def ExecSummary.new : ExecSummary :=
  ⟨0, 0, 0⟩

/-- Field-wise accumulation of two execution summaries. -/
def ExecSummary.merge (a b : ExecSummary) : ExecSummary :=
  ⟨a.time_processed_ns + b.time_processed_ns,
   a.num_produced_rows + b.num_produced_rows,
   a.num_iterations + b.num_iterations⟩

/-- Modelled from the spec: the Statistics Aggregator
(`BatchExecuteStatistics` of the missing `statistics.rs`): generic
execution metrics plus an optional execution-summary record per operator
(`summary_per_executor`, the field name used at
`interface.rs:90`). -/
structure BatchExecuteStatistics where
  metrics : List Nat
  summary_per_executor : List (Option ExecSummary)
deriving DecidableEq

/-- Modelled from the spec: the minimal summary-collector capability of
the missing `exec_summary.rs` (`ExecSummaryCollector`), as exercised by
`interface.rs`: start a timer (returning a duration recorder `τ`), stop
the timer given a produced row count, and flush the accumulated summary
into a destination slice. `γ` is the collector state. -/
structure ExecSummaryCollectorOps (γ τ : Type) where
  on_start_iterate : γ → γ × τ
  on_finish_iterate : γ → τ → Nat → γ
  collect_into : γ → List (Option ExecSummary) → γ × List (Option ExecSummary)

/-- The `BatchExecutor` trait: an executor over state type `σ` exposes a
schema, pulls the next batch given a scan-row hint, and contributes
accumulated statistics into a destination aggregator.  `&self` becomes a
read of the state; `&mut self` becomes state passing. -/
structure BatchExecutor (σ : Type) where
  schema : σ → List FieldType
  next_batch : σ → Nat → BatchExecuteResult × σ
  collect_statistics : σ → BatchExecuteStatistics → BatchExecuteStatistics × σ

/-- The `WithSummaryCollector` wrapper struct: a summary collector state
paired with the wrapped inner executor state (fields as constructed at
`interface.rs:51`). -/
structure WithSummaryCollector (γ σ : Type) where
  summary_collector : γ
  inner : σ

/-- The trait's provided method `with_summary_collector` (at
`interface.rs:44`): pair a collector with the executor state. -/
def BatchExecutor.with_summary_collector {γ σ : Type}
    (summary_collector : γ) (inner : σ) : WithSummaryCollector γ σ :=
  { summary_collector := summary_collector, inner := inner }

/-- The Rust `Box<T>` owning handle, holding one value of the boxed
state. -/
structure Box (σ : Type) where
  val : σ

/-- Embedding of `impl BatchExecutor for Box<T>` (`interface.rs:58`): every operation
dereferences and delegates to the held instance. -/
def boxExec {σ : Type} (e : BatchExecutor σ) : BatchExecutor (Box σ) where
  schema s := e.schema s.val
  next_batch s scan_rows :=
    let r := e.next_batch s.val scan_rows
    (r.1, ⟨r.2⟩)
  collect_statistics s destination :=
    let r := e.collect_statistics s.val destination
    (r.1, ⟨r.2⟩)

/-- Embedding of `impl BatchExecutor for WithSummaryCollector<C, T>` (`interface.rs:72`):
`schema` forwards to the inner executor; `next_batch` starts the timer,
delegates, stops the timer with the number of logical rows of the result,
and returns the inner result; `collect_statistics` delegates to the inner
executor first and then flushes the collector's own summary into the
destination's `summary_per_executor`. -/
def withSummaryExec {γ τ σ : Type} (k : ExecSummaryCollectorOps γ τ)
    (e : BatchExecutor σ) : BatchExecutor (WithSummaryCollector γ σ) where
  schema s := e.schema s.inner
  next_batch s scan_rows :=
    let ct := k.on_start_iterate s.summary_collector
    let rs := e.next_batch s.inner scan_rows
    let c2 := k.on_finish_iterate ct.1 ct.2 rs.1.logical_rows.length
    (rs.1, ⟨c2, rs.2⟩)
  collect_statistics s destination :=
    let ds := e.collect_statistics s.inner destination
    let cs := k.collect_into s.summary_collector ds.1.summary_per_executor
    ({ ds.1 with summary_per_executor := cs.2 }, ⟨cs.1, ds.2⟩)

/-- Run a sequence of `next_batch` calls with the given scan-row hints,
collecting the returned results in order together with the final state. -/
def runBatches {σ : Type} (e : BatchExecutor σ) :
    σ → List Nat → List BatchExecuteResult × σ
  | s, [] => ([], s)
  | s, n :: ns =>
    let r := e.next_batch s n
    let rest := runBatches e r.2 ns
    (r.1 :: rest.1, rest.2)

/-- Modelled from the spec: the state of the enabled summary collector of
the missing `exec_summary.rs`: the destination slot index identifying the
instrumented operator, an environment-chosen stream of clock readings
(abstracting the machine wall clock, which is not otherwise representable
in a pure embedding), and the counters accumulated since the previous
flush. -/
structure ExecSummaryCollectorEnabled where
  output_index : Nat
  clock : List Nat
  counts : ExecSummary
deriving DecidableEq

/-- Modelled from the spec: flushing accumulated counters into slot
`output_index` of a destination slice — merging into an existing entry,
creating the entry when the slot is empty, writing nothing when the slot
index is out of range. -/
def flushInto (c : ExecSummaryCollectorEnabled)
    (target : List (Option ExecSummary)) : List (Option ExecSummary) :=
  match target[c.output_index]? with
  | none => target
  | some none => target.set c.output_index (some c.counts)
  | some (some t) => target.set c.output_index (some (t.merge c.counts))

/-- Modelled from the spec: the operations of the enabled summary
collector.  `on_start_iterate` counts one iteration and reads the clock,
returning the reading as the duration recorder; `on_finish_iterate`
reads the clock again and accumulates the elapsed time and the produced
row count; `collect_into` flushes the accumulated counters into slot
`output_index` of the destination — merging into an existing entry,
creating the entry when the slot is empty, writing nothing when the slot
index is out of range — and resets the counters, so each flush reports
only the delta since the previous flush. -/
def enabledOps : ExecSummaryCollectorOps ExecSummaryCollectorEnabled Nat where
  on_start_iterate c :=
    ({ c with
        clock := c.clock.tail,
        counts := { c.counts with num_iterations := c.counts.num_iterations + 1 } },
     c.clock.headD 0)
  on_finish_iterate c timer rows :=
    { c with
        clock := c.clock.tail,
        counts := { c.counts with
          num_produced_rows := c.counts.num_produced_rows + rows,
          time_processed_ns :=
            c.counts.time_processed_ns + (c.clock.headD timer - timer) } }
  collect_into c target :=
    ({ c with counts := ExecSummary.new }, flushInto c target)

/-- One `next_batch` step of a collector: start the timer, then stop it
with the produced row count. -/
def stepCollector {γ τ : Type} (k : ExecSummaryCollectorOps γ τ) (c : γ)
    (rows : Nat) : γ :=
  let ct := k.on_start_iterate c
  k.on_finish_iterate ct.1 ct.2 rows

/-- Test fixture: an executor whose state is a script of results to
return in order; `next_batch` pops the next scripted result (a default
drained result once the script is exhausted) and `collect_statistics`
contributes nothing. -/
def scriptedExec : BatchExecutor (List BatchExecuteResult) where
  schema _ := [⟨7⟩]
  next_batch s _ :=
    match s with
    | [] => (⟨⟨[]⟩, [], ⟨[]⟩, Except.ok true⟩, [])
    | r :: rest => (r, rest)
  collect_statistics s d := (d, s)

/-- Test fixture: an executor that returns the same result on every pull
and contributes nothing to statistics. -/
def constExec (r : BatchExecuteResult) : BatchExecutor Unit where
  schema _ := [⟨7⟩]
  next_batch _ _ := (r, ())
  collect_statistics _ d := (d, ())

/-- The three completion states of the drain protocol, in the spec's
words: more pulls may follow, drained successfully, or drained with an
error of the external error type. -/
inductive CompletionSignal where
  | Continue : CompletionSignal
  | DrainedOk : CompletionSignal
  | DrainedErr : Error → CompletionSignal
deriving DecidableEq

/-- Reading of the `is_drained` field (per its documentation at
`interface.rs:124`): `Ok(false)` is the continue case, `Ok(true)` is the
drained case, `Err(e)` is the drained-with-error case. -/
def signalOfDrained : Except Error Bool → CompletionSignal
  | .ok false => .Continue
  | .ok true => .DrainedOk
  | .error e => .DrainedErr e

/-- Encoding of a completion state as an `is_drained` field value. -/
def drainedOfSignal : CompletionSignal → Except Error Bool
  | .Continue => .ok false
  | .DrainedOk => .ok true
  | .DrainedErr e => .error e

/-- The documented invariant on `logical_rows` (`interface.rs:116`):
valid row offsets into `physical_columns`, i.e. every offset is within
the physical row count and the offsets are pairwise distinct. -/
def BatchExecuteResult.well_formed (r : BatchExecuteResult) : Prop :=
  (∀ i ∈ r.logical_rows, i < r.physical_columns.rows_len) ∧ r.logical_rows.Nodup

instance (r : BatchExecuteResult) : Decidable r.well_formed := by
  unfold BatchExecuteResult.well_formed
  infer_instance

/-- Contract: every result an executor produces satisfies the documented
`logical_rows` invariant. -/
def ProducesWellFormed {σ : Type} (e : BatchExecutor σ) : Prop :=
  ∀ (s : σ) (n : Nat), ((e.next_batch s n).1).well_formed

/-- Contract: an executor's schema is unchanged by its own state
transitions (`next_batch` and `collect_statistics`), so repeated
`schema()` calls during its lifetime return the identical sequence. -/
def SchemaStable {σ : Type} (e : BatchExecutor σ) : Prop :=
  ∀ s : σ, (∀ n, e.schema (e.next_batch s n).2 = e.schema s) ∧
    (∀ d, e.schema (e.collect_statistics s d).2 = e.schema s)

/-- Contract (from the `collect_statistics` documentation at
`interface.rs:39`): immediately after a collection, a further collection
with no intervening pulls adds nothing to any destination. -/
def EmptyDeltaAfterCollect {σ : Type} (e : BatchExecutor σ) : Prop :=
  ∀ (s : σ) (d d' : BatchExecuteStatistics),
    (e.collect_statistics (e.collect_statistics s d).2 d').1 = d'

/-- A concrete well-formed result: three physical rows, logical rows
selecting offsets 2 and 0, not drained. -/
def wfResult : BatchExecuteResult :=
  ⟨⟨[[10, 20, 30]]⟩, [2, 0], ⟨[]⟩, Except.ok false⟩

/-- A concrete well-formed result: two physical rows, one logical row,
drained. -/
def wfResult2 : BatchExecuteResult :=
  ⟨⟨[[1, 2]]⟩, [1], ⟨[]⟩, Except.ok true⟩

/-- One `next_batch` step of the decorated executor: the inner result is
returned unchanged and the collector advances by one `stepCollector`. -/
theorem withSummary_next_batch_eq {γ τ σ : Type} (k : ExecSummaryCollectorOps γ τ)
    (e : BatchExecutor σ) (c : γ) (s : σ) (n : Nat) :
    (withSummaryExec k e).next_batch ⟨c, s⟩ n =
      ((e.next_batch s n).1,
       ⟨stepCollector k c (e.next_batch s n).1.logical_rows.length,
        (e.next_batch s n).2⟩) := rfl

/-- One `next_batch` step of a boxed executor delegates to the held
instance. -/
theorem box_next_batch_eq {σ : Type} (e : BatchExecutor σ) (s : σ) (n : Nat) :
    (boxExec e).next_batch ⟨s⟩ n =
      ((e.next_batch s n).1, ⟨(e.next_batch s n).2⟩) := rfl

/-- Running the decorated executor returns exactly the inner run's
results and final inner state, and folds the collector over the logical
row counts of those results. -/
theorem runBatches_withSummary {γ τ σ : Type} (k : ExecSummaryCollectorOps γ τ)
    (e : BatchExecutor σ) (c : γ) (s : σ) (hints : List Nat) :
    runBatches (withSummaryExec k e) ⟨c, s⟩ hints =
      ((runBatches e s hints).1,
       ⟨(runBatches e s hints).1.foldl
          (fun acc r => stepCollector k acc r.logical_rows.length) c,
        (runBatches e s hints).2⟩) := by
  induction hints generalizing c s with
  | nil => rfl
  | cons n ns ih =>
      simp only [runBatches, withSummary_next_batch_eq, List.foldl_cons]
      rw [ih]

/-- Running a boxed executor returns exactly the inner run's results and
final state. -/
theorem runBatches_box {σ : Type} (e : BatchExecutor σ) (s : σ)
    (hints : List Nat) :
    runBatches (boxExec e) ⟨s⟩ hints =
      ((runBatches e s hints).1, ⟨(runBatches e s hints).2⟩) := by
  induction hints generalizing s with
  | nil => rfl
  | cons n ns ih =>
      simp only [runBatches, box_next_batch_eq]
      rw [ih]

/-- C1: for every inner operator, every summary collector and every
sequence of `next_batch` calls with any hints, the decorated operator
returns exactly the inner operator's sequence of results (columns,
logical rows, warnings and completion signal all unchanged), forwarding
each hint unchanged; the inner operator also traverses exactly the same
states, the decorator's only added effect being on the collector
component of its state. -/
theorem withSummary_preserves_observed_results {γ τ σ : Type}
    (k : ExecSummaryCollectorOps γ τ) (e : BatchExecutor σ) (c : γ) (s : σ)
    (hints : List Nat) :
    (runBatches (withSummaryExec k e) ⟨c, s⟩ hints).1 = (runBatches e s hints).1 ∧
    ((runBatches (withSummaryExec k e) ⟨c, s⟩ hints).2).inner = (runBatches e s hints).2 := by
  rw [runBatches_withSummary]
  exact ⟨rfl, rfl⟩

/-- C2: the boxed executor satisfies the operator contract by pure
delegation: `schema`, `next_batch` and `collect_statistics` each produce
exactly the result and state effect of the held instance, and whole runs
observe identical result sequences. -/
theorem box_is_pure_delegation {σ : Type} (e : BatchExecutor σ) (s : σ)
    (n : Nat) (d : BatchExecuteStatistics) (hints : List Nat) :
    (boxExec e).schema ⟨s⟩ = e.schema s ∧
    (boxExec e).next_batch ⟨s⟩ n = ((e.next_batch s n).1, ⟨(e.next_batch s n).2⟩) ∧
    (boxExec e).collect_statistics ⟨s⟩ d =
      ((e.collect_statistics s d).1, ⟨(e.collect_statistics s d).2⟩) ∧
    (runBatches (boxExec e) ⟨s⟩ hints).1 = (runBatches e s hints).1 := by
  refine ⟨rfl, rfl, rfl, ?_⟩
  rw [runBatches_box]

/-- C3: the decorator's `collect_statistics` delegates to the inner
operator first and flushes its own summary afterwards, into the
destination as already updated by the inner call; with nested decorators
the flushes therefore apply innermost-first. -/
theorem collect_statistics_is_depth_first {γ τ σ : Type}
    (k : ExecSummaryCollectorOps γ τ) (e : BatchExecutor σ) (cOuter c : γ)
    (s : σ) (d : BatchExecuteStatistics) :
    ((withSummaryExec k e).collect_statistics ⟨c, s⟩ d).1.summary_per_executor =
      (k.collect_into c ((e.collect_statistics s d).1).summary_per_executor).2 ∧
    ((withSummaryExec k (withSummaryExec k e)).collect_statistics
        ⟨cOuter, c, s⟩ d).1.summary_per_executor =
      (k.collect_into cOuter
        (k.collect_into c ((e.collect_statistics s d).1).summary_per_executor).2).2 :=
  ⟨rfl, rfl⟩

/-- C5: the completion signal is the single field `is_drained`, a tagged
variant with exactly the three states Continue, Drained-Success and
Drained-Error carrying the error: encoding and decoding between the
field and the three-state signal are mutually inverse, so no fourth
state is representable. -/
theorem is_drained_has_exactly_three_states :
    (∀ r : BatchExecuteResult,
       drainedOfSignal (signalOfDrained r.is_drained) = r.is_drained) ∧
    (∀ sig : CompletionSignal, signalOfDrained (drainedOfSignal sig) = sig) := by
  constructor
  · intro r
    rcases r.is_drained with e | b
    · rfl
    · cases b <;> rfl
  · intro sig
    cases sig <;> rfl

/-- C6: a result with an empty logical row sequence and the continue
signal is representable (even with zero physical rows), and its signal
is distinct from both drained states, so emptiness never implies
completion. -/
theorem empty_continue_result_is_valid :
    (∃ r : BatchExecuteResult,
       r.logical_rows = [] ∧ r.physical_columns.rows_len = 0 ∧
       r.is_drained = Except.ok false) ∧
    (∀ r : BatchExecuteResult, r.is_drained = Except.ok false →
       signalOfDrained r.is_drained ≠ CompletionSignal.DrainedOk ∧
       ∀ e : Error, signalOfDrained r.is_drained ≠ CompletionSignal.DrainedErr e) := by
  constructor
  · exact ⟨⟨⟨[]⟩, [], ⟨[]⟩, Except.ok false⟩, rfl, rfl, rfl⟩
  · intro r h
    rw [h]
    exact ⟨by simp [signalOfDrained], fun e => by simp [signalOfDrained]⟩

/-- Witness for C6 at a concrete continue-result with no rows. -/
theorem empty_continue_result_is_valid_witness :
    signalOfDrained
        (⟨⟨[]⟩, [], ⟨[]⟩, Except.ok false⟩ : BatchExecuteResult).is_drained ≠
      CompletionSignal.DrainedOk :=
  (empty_continue_result_is_valid.2 ⟨⟨[]⟩, [], ⟨[]⟩, Except.ok false⟩ rfl).1

/-- C7: if every result the inner operator produces satisfies the
`logical_rows` invariant (offsets in bounds and pairwise distinct), then
so does every result produced by the boxed operator and by the decorated
operator — the interface's two implementations preserve the invariant. -/
theorem wrappers_preserve_well_formed {γ τ σ : Type}
    (k : ExecSummaryCollectorOps γ τ) (e : BatchExecutor σ)
    (h : ProducesWellFormed e) :
    ProducesWellFormed (boxExec e) ∧ ProducesWellFormed (withSummaryExec k e) :=
  ⟨fun s n => h s.val n, fun s n => h s.inner n⟩

/-- Witness for C7 at a concrete operator producing a well-formed
result. -/
theorem wrappers_preserve_well_formed_witness :
    ProducesWellFormed (boxExec (constExec wfResult)) ∧
    ProducesWellFormed (withSummaryExec enabledOps (constExec wfResult)) :=
  wrappers_preserve_well_formed enabledOps (constExec wfResult)
    (fun _ _ => show wfResult.well_formed by decide)

/-- C9: the decorator's `schema` returns exactly the inner operator's
schema (it is a pure read of the state, so repeated calls agree), and
schema stability across state transitions is preserved by the
decorator. -/
theorem schema_forwarded_and_stable {γ τ σ : Type}
    (k : ExecSummaryCollectorOps γ τ) (e : BatchExecutor σ)
    (h : SchemaStable e) :
    (∀ (c : γ) (s : σ), (withSummaryExec k e).schema ⟨c, s⟩ = e.schema s) ∧
    SchemaStable (withSummaryExec k e) := by
  refine ⟨fun c s => rfl, fun s => ⟨fun n => ?_, fun d => ?_⟩⟩
  · exact (h s.inner).1 n
  · exact (h s.inner).2 d

/-- Witness for C9 at a concrete stable operator. -/
theorem schema_forwarded_and_stable_witness :
    SchemaStable (withSummaryExec enabledOps (constExec wfResult)) :=
  (schema_forwarded_and_stable enabledOps (constExec wfResult)
    (fun _ => ⟨fun _ => rfl, fun _ => rfl⟩)).2

/-- C10: during the decorator's `collect_statistics`, the decorator's
own contribution touches only the `summary_per_executor` field: every
other field of the destination is exactly as the inner operator's
delegated call left it. -/
theorem decorator_writes_only_summary {γ τ σ : Type}
    (k : ExecSummaryCollectorOps γ τ) (e : BatchExecutor σ) (c : γ) (s : σ)
    (d : BatchExecuteStatistics) :
    ((withSummaryExec k e).collect_statistics ⟨c, s⟩ d).1.metrics =
      ((e.collect_statistics s d).1).metrics := rfl

/-- One `collect_statistics` call of the decorated executor, written
out: the inner call happens first, then the collector flushes into the
summary field of the destination the inner call produced. -/
theorem withSummary_collect_eq {γ τ σ : Type} (k : ExecSummaryCollectorOps γ τ)
    (e : BatchExecutor σ) (c : γ) (s : σ) (d : BatchExecuteStatistics) :
    (withSummaryExec k e).collect_statistics ⟨c, s⟩ d =
      ({ (e.collect_statistics s d).1 with
          summary_per_executor :=
            (k.collect_into c (e.collect_statistics s d).1.summary_per_executor).2 },
       ⟨(k.collect_into c (e.collect_statistics s d).1.summary_per_executor).1,
        (e.collect_statistics s d).2⟩) := rfl

/-- Merging the all-zero summary on the right is the identity. -/
theorem ExecSummary.merge_new (a : ExecSummary) :
    a.merge ExecSummary.new = a := by
  cases a
  simp [ExecSummary.merge, ExecSummary.new]

/-- The collector state component of a flush: counters reset. -/
@[simp] theorem collect_into_enabled_fst (c : ExecSummaryCollectorEnabled)
    (target : List (Option ExecSummary)) :
    (enabledOps.collect_into c target).1 = { c with counts := ExecSummary.new } := rfl

/-- The destination component of a flush is `flushInto`. -/
@[simp] theorem collect_into_enabled_snd (c : ExecSummaryCollectorEnabled)
    (target : List (Option ExecSummary)) :
    (enabledOps.collect_into c target).2 = flushInto c target := rfl

/-- Flushing writes nothing when the slot index is out of range. -/
theorem flushInto_of_none (c : ExecSummaryCollectorEnabled)
    (target : List (Option ExecSummary))
    (h : target[c.output_index]? = none) : flushInto c target = target := by
  unfold flushInto
  rw [h]

/-- Flushing creates the entry when the slot is empty. -/
theorem flushInto_of_some_none (c : ExecSummaryCollectorEnabled)
    (target : List (Option ExecSummary))
    (h : target[c.output_index]? = some none) :
    flushInto c target = target.set c.output_index (some c.counts) := by
  unfold flushInto
  rw [h]

/-- Flushing merges into an existing entry. -/
theorem flushInto_of_some_some (c : ExecSummaryCollectorEnabled)
    (target : List (Option ExecSummary)) (t : ExecSummary)
    (h : target[c.output_index]? = some (some t)) :
    flushInto c target = target.set c.output_index (some (t.merge c.counts)) := by
  unfold flushInto
  rw [h]

/-- One collector step preserves the slot index and adds exactly the
produced row count to the accumulated counter. -/
theorem stepCollector_enabled (c : ExecSummaryCollectorEnabled) (rows : Nat) :
    (stepCollector enabledOps c rows).output_index = c.output_index ∧
    (stepCollector enabledOps c rows).counts.num_produced_rows
      = c.counts.num_produced_rows + rows :=
  ⟨rfl, rfl⟩

/-- Folding collector steps over a result list preserves the slot index
and accumulates the sum of the logical row counts. -/
theorem foldl_stepCollector_enabled (rs : List BatchExecuteResult)
    (c : ExecSummaryCollectorEnabled) :
    (rs.foldl (fun acc r => stepCollector enabledOps acc r.logical_rows.length)
        c).output_index = c.output_index ∧
    (rs.foldl (fun acc r => stepCollector enabledOps acc r.logical_rows.length)
        c).counts.num_produced_rows
      = c.counts.num_produced_rows + (rs.map fun r => r.logical_rows.length).sum := by
  induction rs generalizing c with
  | nil => exact ⟨rfl, by simp⟩
  | cons r rest ih =>
      simp only [List.foldl_cons, List.map_cons, List.sum_cons]
      refine ⟨(ih _).1, ?_⟩
      rw [(ih _).2, (stepCollector_enabled c r.logical_rows.length).2]
      exact Nat.add_assoc _ _ _

/-- Flushing freshly reset counters immediately after a flush leaves the
destination unchanged. -/
theorem flushInto_reset_flushInto (c c2 : ExecSummaryCollectorEnabled)
    (hidx : c2.output_index = c.output_index) (hcnt : c2.counts = ExecSummary.new)
    (target : List (Option ExecSummary)) :
    flushInto c2 (flushInto c target) = flushInto c target := by
  cases hT : target[c.output_index]? with
  | none =>
      rw [flushInto_of_none c target hT]
      rw [flushInto_of_none c2 target (by rw [hidx]; exact hT)]
  | some o =>
      have hlt : c.output_index < target.length := (List.getElem?_eq_some.mp hT).1
      cases o with
      | none =>
          rw [flushInto_of_some_none c target hT]
          rw [flushInto_of_some_some c2 _ c.counts
            (by rw [hidx]; exact List.getElem?_set_eq_of_lt _ hlt)]
          rw [hidx, hcnt, List.set_set, ExecSummary.merge_new]
      | some t =>
          rw [flushInto_of_some_some c target t hT]
          rw [flushInto_of_some_some c2 _ (t.merge c.counts)
            (by rw [hidx]; exact List.getElem?_set_eq_of_lt _ hlt)]
          rw [hidx, hcnt, List.set_set, ExecSummary.merge_new]

/-- C4: each `next_batch` call on the decorated operator reports to the
collector exactly the number of logical rows of that call's result;
starting from fresh counters, after pulling with any sequence of hints
the accumulated row count is the sum of the logical row counts of all
calls, and collecting then yields one summary entry in the decorator's
slot whose accumulated row count is exactly that sum. -/
theorem summary_entry_accumulates_logical_rows {σ : Type} (e : BatchExecutor σ)
    (s : σ) (idx : Nat) (clk hints : List Nat) (d : BatchExecuteStatistics)
    (h : ((e.collect_statistics (runBatches e s hints).2 d).1.summary_per_executor)[idx]?
          = some none) :
    (∀ (c : ExecSummaryCollectorEnabled) (s0 : σ) (n : Nat),
       ((withSummaryExec enabledOps e).next_batch
           ⟨c, s0⟩ n).2.summary_collector.counts.num_produced_rows
         = c.counts.num_produced_rows + (e.next_batch s0 n).1.logical_rows.length) ∧
    (runBatches (withSummaryExec enabledOps e)
        ⟨⟨idx, clk, ExecSummary.new⟩, s⟩ hints).2.summary_collector.counts.num_produced_rows
      = ((runBatches e s hints).1.map fun r => r.logical_rows.length).sum ∧
    ∃ summ : ExecSummary,
      (((withSummaryExec enabledOps e).collect_statistics
          (runBatches (withSummaryExec enabledOps e)
            ⟨⟨idx, clk, ExecSummary.new⟩, s⟩ hints).2 d).1.summary_per_executor)[idx]?
        = some (some summ) ∧
      summ.num_produced_rows
        = ((runBatches e s hints).1.map fun r => r.logical_rows.length).sum := by
  have hrun := runBatches_withSummary enabledOps e ⟨idx, clk, ExecSummary.new⟩ s hints
  refine ⟨fun c s0 n => (stepCollector_enabled c _).2, ?_, ?_⟩
  · rw [hrun]
    simpa [ExecSummary.new] using
      (foldl_stepCollector_enabled (runBatches e s hints).1 ⟨idx, clk, ExecSummary.new⟩).2
  · rw [hrun]
    set cF := (runBatches e s hints).1.foldl
      (fun acc r => stepCollector enabledOps acc r.logical_rows.length)
      (⟨idx, clk, ExecSummary.new⟩ : ExecSummaryCollectorEnabled) with hcF
    have hidx : cF.output_index = idx :=
      (foldl_stepCollector_enabled (runBatches e s hints).1 _).1
    have hsum : cF.counts.num_produced_rows
        = ((runBatches e s hints).1.map fun r => r.logical_rows.length).sum := by
      simpa [ExecSummary.new] using
        (foldl_stepCollector_enabled (runBatches e s hints).1
          ⟨idx, clk, ExecSummary.new⟩).2
    have hslot : ((e.collect_statistics (runBatches e s hints).2
        d).1.summary_per_executor)[cF.output_index]? = some none := by
      rw [hidx]
      exact h
    have hlt : cF.output_index
        < ((e.collect_statistics (runBatches e s hints).2 d).1.summary_per_executor).length :=
      (List.getElem?_eq_some.mp hslot).1
    refine ⟨cF.counts, ?_, hsum⟩
    show (flushInto cF
        ((e.collect_statistics (runBatches e s hints).2 d).1.summary_per_executor))[idx]?
      = some (some cF.counts)
    rw [flushInto_of_some_none cF _ hslot, ← hidx]
    exact List.getElem?_set_eq_of_lt _ hlt

/-- Witness for C4: a two-result script pulled twice accumulates
two plus one logical rows into the single summary entry of slot zero. -/
theorem summary_entry_accumulates_logical_rows_witness :
    (runBatches (withSummaryExec enabledOps scriptedExec)
        ⟨⟨0, [], ExecSummary.new⟩, [wfResult, wfResult2]⟩
        [5, 5]).2.summary_collector.counts.num_produced_rows = 3 :=
  ((summary_entry_accumulates_logical_rows scriptedExec [wfResult, wfResult2]
      0 [] [5, 5] ⟨[], [none]⟩ (by decide)).2.1).trans (by decide)

/-- C8: after the decorated operator's `collect_statistics`, the
collector's counters are reset; if the inner operator contributes
nothing on an immediately repeated collection, then a second
`collect_statistics` on the decorated operator with no intervening pulls
leaves the destination exactly unchanged. -/
theorem second_collect_leaves_destination_unchanged {σ : Type}
    (e : BatchExecutor σ) (h : EmptyDeltaAfterCollect e)
    (c : ExecSummaryCollectorEnabled) (s : σ) (d : BatchExecuteStatistics) :
    ((withSummaryExec enabledOps e).collect_statistics
        ⟨c, s⟩ d).2.summary_collector.counts = ExecSummary.new ∧
    ((withSummaryExec enabledOps e).collect_statistics
        ((withSummaryExec enabledOps e).collect_statistics ⟨c, s⟩ d).2
        ((withSummaryExec enabledOps e).collect_statistics ⟨c, s⟩ d).1).1
      = ((withSummaryExec enabledOps e).collect_statistics ⟨c, s⟩ d).1 := by
  constructor
  · rfl
  · simp only [withSummary_collect_eq, collect_into_enabled_fst,
      collect_into_enabled_snd]
    rw [h s d]
    simp only [flushInto_reset_flushInto c { c with counts := ExecSummary.new }
      rfl rfl]

/-- Witness for C8 at a concrete operator, collector and destination. -/
theorem second_collect_leaves_destination_unchanged_witness :
    ((withSummaryExec enabledOps scriptedExec).collect_statistics
        ⟨⟨0, [], ⟨5, 7, 2⟩⟩, [wfResult]⟩ ⟨[3], [none]⟩).2.summary_collector.counts
      = ExecSummary.new ∧
    ((withSummaryExec enabledOps scriptedExec).collect_statistics
        ((withSummaryExec enabledOps scriptedExec).collect_statistics
          ⟨⟨0, [], ⟨5, 7, 2⟩⟩, [wfResult]⟩ ⟨[3], [none]⟩).2
        ((withSummaryExec enabledOps scriptedExec).collect_statistics
          ⟨⟨0, [], ⟨5, 7, 2⟩⟩, [wfResult]⟩ ⟨[3], [none]⟩).1).1
      = ((withSummaryExec enabledOps scriptedExec).collect_statistics
          ⟨⟨0, [], ⟨5, 7, 2⟩⟩, [wfResult]⟩ ⟨[3], [none]⟩).1 :=
  second_collect_leaves_destination_unchanged scriptedExec
    (fun _ _ _ => rfl) ⟨0, [], ⟨5, 7, 2⟩⟩ [wfResult] ⟨[3], [none]⟩

end TikvBatch
